import Mathlib

/-!
Verification of the save-synchronization core of gdrive-gamepass.

The repository has two near-duplicate modules, `savemgr.py` (class
`ManagerSession`) and `sync_module.py` (class `SyncSession`).  Their
`hash_file`, `hash_dir`, `remote_config_handler`, `diff`, `push`, `pull` and
`enable_game_entry` members are identical in observable state effects, so they
are embedded once; the two `sync` methods differ (in `ManagerSession.sync` the
call `self.push(local_index, ...)` is commented out) and are embedded
separately as `SyncSession.sync` and `ManagerSession.sync`.

Machine integers appear only inside SHA-1, embedded over `Nat` with explicit
`% 2 ^ 32` reductions.  Python exceptions are embedded with `Except`; the
error value carries the state of the session at the moment of the raise,
because Python object mutations performed before an exception survive it.
-/

set_option maxRecDepth 400000

/-! ## SHA-1, as used via `hashlib.sha1` in both modules -/

def rotl32 (s n : Nat) : Nat := ((n <<< s) ||| (n >>> (32 - s))) % 4294967296

def sha1K (i : Nat) : Nat :=
  if i < 20 then 1518500249
  else if i < 40 then 1859775393
  else if i < 60 then 2400959708
  else 3395469782

def sha1F (i b c d : Nat) : Nat :=
  if i < 20 then (b &&& c) ||| ((b ^^^ 4294967295) &&& d)
  else if i < 40 then b ^^^ c ^^^ d
  else if i < 60 then (b &&& c) ||| (b &&& d) ||| (c &&& d)
  else b ^^^ c ^^^ d

def sha1Extend (w : List Nat) : List Nat :=
  (List.range 64).foldl
    (fun acc j =>
      acc ++ [rotl32 1 (acc.getD (j + 13) 0 ^^^ acc.getD (j + 8) 0 ^^^ acc.getD (j + 2) 0 ^^^ acc.getD j 0)])
    w

structure SHA1State where
  a : Nat
  b : Nat
  c : Nat
  d : Nat
  e : Nat
deriving DecidableEq

def sha1Step (st : SHA1State) (iw : Nat × Nat) : SHA1State :=
  let t := (rotl32 5 st.a + sha1F iw.1 st.b st.c st.d + st.e + sha1K iw.1 + iw.2) % 4294967296
  ⟨t, st.a, rotl32 30 st.b, st.c, st.d⟩

def sha1Chunk (h : SHA1State) (chunk : List Nat) : SHA1State :=
  let ws := sha1Extend chunk
  let st := ws.enum.foldl sha1Step h
  ⟨(h.a + st.a) % 4294967296, (h.b + st.b) % 4294967296, (h.c + st.c) % 4294967296,
   (h.d + st.d) % 4294967296, (h.e + st.e) % 4294967296⟩

def sha1PadBytes (ms : List Nat) : List Nat :=
  let L := ms.length
  ms ++ [128] ++ List.replicate ((119 - L % 64) % 64) 0 ++
    (List.range 8).map (fun i => ((L * 8) >>> ((7 - i) * 8)) % 256)

def bytesToWords : List Nat → List Nat
  | b0 :: b1 :: b2 :: b3 :: rest =>
      (b0 * 16777216 + b1 * 65536 + b2 * 256 + b3) :: bytesToWords rest
  | _ => []

def groupWords (ws : List Nat) : List (List Nat) :=
  (ws.foldl
    (fun acc w =>
      let cur := acc.2 ++ [w]
      if cur.length = 16 then (acc.1 ++ [cur], []) else (acc.1, cur))
    (([] : List (List Nat)), ([] : List Nat))).1

def sha1Run (ws : List (List Nat)) : SHA1State :=
  ws.foldl sha1Chunk ⟨1732584193, 4023233417, 2562383102, 271733878, 3285377520⟩

def hexChar (n : Nat) : Char := if n < 10 then Char.ofNat (48 + n) else Char.ofNat (87 + n)

def toHex8 (n : Nat) : String :=
  String.mk ((List.range 8).map (fun i => hexChar ((n >>> ((7 - i) * 4)) % 16)))

/-- Lowercase hexadecimal SHA-1 digest of a byte sequence, the Lean rendering
of `hashlib.sha1(data).hexdigest()`. -/
def sha1Bytes (ms : List Nat) : String :=
  let st := sha1Run (groupWords (bytesToWords (sha1PadBytes ms)))
  toHex8 st.a ++ toHex8 st.b ++ toHex8 st.c ++ toHex8 st.d ++ toHex8 st.e

def strBytes (s : String) : List Nat := s.data.map Char.toNat

/-- Digest `hashlib.sha1(s.encode()).hexdigest()` for the ASCII strings the program
hashes (concatenations of hex digests). -/
def sha1Str (s : String) : String := sha1Bytes (strBytes s)

/-! ## Directory trees

`FSTree` models what the filesystem holds at a path: a file with its raw
bytes, or a directory whose entries appear in the filesystem enumeration
order (the order `os.walk` would yield them in before the code sorts them). -/

mutual
inductive FSTree where
  | file (content : List Nat)
  | dir (entries : Entries)
deriving DecidableEq
inductive Entries where
  | nil
  | cons (name : String) (t : FSTree) (rest : Entries)
deriving DecidableEq
end

def Entries.toList : Entries → List (String × FSTree)
  | .nil => []
  | .cons n t r => (n, t) :: toList r

def Entries.names (es : Entries) : List String := es.toList.map Prod.fst

/-- Sort key used for the `sorted(files)` / `sorted(dirs)` calls: compare the
entry names lexicographically. -/
def keyLe {α : Type} (a b : String × α) : Prop := a.1 ≤ b.1

instance {α : Type} : IsTotal (String × α) keyLe := ⟨fun a b => le_total a.1 b.1⟩

instance {α : Type} : IsTrans (String × α) keyLe := ⟨fun _ _ _ h1 h2 => le_trans h1 h2⟩

instance {α : Type} : DecidableRel (@keyLe α) :=
  fun a b => inferInstanceAs (Decidable (a.1 ≤ b.1))

/-- String concatenation of a list of digest strings, as the join call in
`hash_dir` does. -/
def strConcat : List String → String
  | [] => ""
  | s :: r => s ++ strConcat r

/-- The per-entry digests of the files of one directory level: for each entry
holding a file, `hash_file` of its bytes, keyed by the entry name. -/
def fileHashes : Entries → List (String × String)
  | .nil => []
  | .cons n (.file b) r => (n, sha1Bytes b) :: fileHashes r
  | .cons _ (.dir _) r => fileHashes r

mutual
/-- Digest of the tree found at a path, as `hash_dir` computes it: files of the immediate level in
lexicographic name order, then immediate subdirectories in lexicographic name
order, digests concatenated and hashed.  `os.walk` yields nothing for a
non-directory, so a file argument hashes the empty concatenation. -/
def hashDirTree : FSTree → String
  | .file _ => sha1Str ""
  | .dir es =>
      sha1Str (strConcat ((List.insertionSort keyLe (fileHashes es)).map Prod.snd ++
        (List.insertionSort keyLe (dirHashes es)).map Prod.snd))
/-- The per-entry digests of the immediate subdirectories of one level:
`hash_dir` applied recursively, keyed by the entry name. -/
def dirHashes : Entries → List (String × String)
  | .nil => []
  | .cons _ (.file _) r => dirHashes r
  | .cons n (.dir es) r => (n, hashDirTree (.dir es)) :: dirHashes r
end

/-- The `hashes_concat` string that `hash_dir` feeds to the final SHA-1. -/
def dirConcat (es : Entries) : String :=
  strConcat ((List.insertionSort keyLe (fileHashes es)).map Prod.snd ++
    (List.insertionSort keyLe (dirHashes es)).map Prod.snd)

/-- Python errors that the modeled code can raise. -/
inductive PyErr where
  | indexError
  | keyError
  | typeError
  | valueError
  | fileNotFoundError
  | isADirectoryError
  | transportError
deriving DecidableEq

/-- The function `hash_file(path)`: opening a missing path raises
`FileNotFoundError`, opening a directory raises `IsADirectoryError`;
otherwise the whole content is streamed through SHA-1. -/
def hash_file (o : Option FSTree) : Except PyErr String :=
  match o with
  | none => .error .fileNotFoundError
  | some (.file b) => .ok (sha1Bytes b)
  | some (.dir _) => .error .isADirectoryError

/-- The function `hash_dir(path)` applied to whatever the filesystem holds at `path`:
`os.walk` silently yields nothing for a missing path or a non-directory, so
those cases hash the empty concatenation and still return a digest. -/
def hash_dir (o : Option FSTree) : String :=
  match o with
  | none => sha1Str ""
  | some t => hashDirTree t

/-! ## The session state

`LocalGameEntry` is one element of the games list of the local config as built by
`enable_game_entry`; `RemoteGameEntry` is one element of the remote
games list of the remote `config.json`.  The remote entries are Python dicts
whose keys may be individually absent, hence the `Option` fields. -/

structure LocalGameEntry where
  name : String
  cloud_index : Int
  path : String
  base_hash : String
deriving DecidableEq

structure RemoteGameEntry where
  name : Option String := none
  root_id : Option String := none
  latest_hash : Option String := none
  saves : Option (List String) := none
deriving DecidableEq

/-- Python `if kwargs:`: true when the keyword dict is nonempty. -/
def RemoteGameEntry.isEmptyKw (k : RemoteGameEntry) : Bool :=
  k.name.isNone && k.root_id.isNone && k.latest_hash.isNone && k.saves.isNone

def orD {α : Type} (a b : Option α) : Option α :=
  match a with
  | some v => some v
  | none => b

/-- Python dict update with keyword arguments: keys present in `kwargs` replace those of `e`. -/
def RemoteGameEntry.updateWith (e k : RemoteGameEntry) : RemoteGameEntry :=
  ⟨orD k.name e.name, orD k.root_id e.root_id, orD k.latest_hash e.latest_hash,
   orD k.saves e.saves⟩

/-- The remote `config.json` document. -/
structure RemoteDoc where
  base_revision : Int
  games : List RemoteGameEntry
deriving DecidableEq

/-- Python list index normalization: negative indices count from the end;
`none` means out of range (`IndexError`). -/
def pyIdx (len : Nat) (i : Int) : Option Nat :=
  if i < 0 then
    if 0 ≤ i + len then some (i + len).toNat else none
  else if i < len then some i.toNat else none

/-- Python `l[i]` for lists. -/
def pyGet {α : Type} (l : List α) (i : Int) : Option α :=
  match pyIdx l.length i with
  | some n => l.get? n
  | none => none

/-- Externally visible side effects of one session call, in order. -/
inductive Event where
  | remoteWrite
  | tarCreate
  | driveUpload
  | driveDownload
  | rmTree
  | extractArchive
  | localWrite
deriving DecidableEq

/-- The state a session acts on: the in-memory games list of the session,
the persisted `settings.json`, the remote `config.json` (none when the drive
handle is not initialized), the local filesystem keyed by save path, the
uploaded archives by drive id, a counter for fresh drive ids, the clock, and
the trace of side effects. -/
structure World where
  localGames : List LocalGameEntry
  settingsFile : List LocalGameEntry
  remote : Option RemoteDoc
  fs : String → Option FSTree
  archives : List (String × FSTree)
  nextId : Nat
  now : Nat
  trace : List Event

/-- What `remote_config_handler` returns: a single game dict when an index
was given, else the whole `games` list. -/
inductive RCValue where
  | one (e : RemoteGameEntry)
  | all (es : List RemoteGameEntry)
deriving DecidableEq

/-- The method `remote_config_handler(delete, index, kwargs)`.  Reads the remote
document; `AttributeError` (no drive handle) is caught and yields `None`.  In
non-delete mode with an index, nonempty kwargs are merged into the entry; with
no index, nonempty kwargs are appended as a new entry.  In delete mode kwargs
are rejected, the entry is popped and `base_revision` incremented.  The
document is written back exactly when kwargs were given or delete was set. -/
def remote_config_handler (w : World) (delete : Bool) (index : Option Int)
    (kwargs : RemoteGameEntry) : Except (PyErr × World) (Option RCValue × World) :=
  match w.remote with
  | none => .ok (none, w)
  | some doc =>
    if delete = false then
      match index with
      | some i =>
        if kwargs.isEmptyKw then
          match pyGet doc.games i with
          | some e => .ok (some (.one e), w)
          | none => .error (.indexError, w)
        else
          match pyIdx doc.games.length i with
          | some n =>
            let e2 := (doc.games.getD n {}).updateWith kwargs
            let doc2 : RemoteDoc := ⟨doc.base_revision, doc.games.set n e2⟩
            .ok (some (.one e2),
              { w with remote := some doc2, trace := w.trace ++ [Event.remoteWrite] })
          | none => .error (.indexError, w)
      | none =>
        if kwargs.isEmptyKw then .ok (some (.all doc.games), w)
        else
          let doc2 : RemoteDoc := ⟨doc.base_revision, doc.games ++ [kwargs]⟩
          .ok (some (.all doc2.games),
            { w with remote := some doc2, trace := w.trace ++ [Event.remoteWrite] })
    else
      if kwargs.isEmptyKw = false then .error (.valueError, w)
      else
        match index with
        | none => .error (.typeError, w)
        | some i =>
          match pyIdx doc.games.length i with
          | some n =>
            let doc2 : RemoteDoc := ⟨doc.base_revision + 1, doc.games.eraseIdx n⟩
            .ok (some (.all doc2.games),
              { w with remote := some doc2, trace := w.trace ++ [Event.remoteWrite] })
          | none => .error (.indexError, w)

/-- The method `diff(local_index, diff_local)`: with `diff_local` the current `hash_dir`
of the save path is compared against `base_hash`; otherwise the remote
remote `latest_hash` of the entry is.  Returns `true` when they differ. -/
def diff (w : World) (local_index : Nat) (diff_local : Bool) :
    Except (PyErr × World) (Bool × World) :=
  match w.localGames.get? local_index with
  | none => .error (.indexError, w)
  | some g =>
    if diff_local then
      .ok (hash_dir (w.fs g.path) != g.base_hash, w)
    else
      match remote_config_handler w false (some g.cloud_index) {} with
      | .error e => .error e
      | .ok (v, w1) =>
        match v with
        | some (.one e) =>
          match e.latest_hash with
          | some h => .ok (h != g.base_hash, w1)
          | none => .error (.keyError, w1)
        | _ => .error (.typeError, w1)

/-- The method `push(local_index)` for both classes.  `uploadOk` injects the outcome of
`fileitem.Upload()`: on failure the exception propagates at that point.  Note
the aliasing in the source: `local_config` is the dict stored in
the games list of the session, so the base-hash assignment
mutates the in-memory session state before the archive is uploaded. -/
def push (w : World) (local_index : Nat) (uploadOk : Bool) :
    Except (PyErr × World) World :=
  match w.localGames.get? local_index with
  | none => .error (.indexError, w)
  | some g =>
    match remote_config_handler w false (some g.cloud_index) {} with
    | .error e => .error e
    | .ok (v, w1) =>
      match v with
      | some (.one gc) =>
        match gc.root_id with
        | none => .error (.keyError, w1)
        | some _ =>
          let save_hash := hash_dir (w1.fs g.path)
          let gc1 := { gc with latest_hash := some save_hash }
          let g1 := { g with base_hash := save_hash }
          let w2 := { w1 with localGames := w1.localGames.set local_index g1 }
          match w2.fs g.path with
          | none => .error (.fileNotFoundError, w2)
          | some tree =>
            let w3 := { w2 with trace := w2.trace ++ [Event.tarCreate] }
            if uploadOk = false then .error (.transportError, w3)
            else
              let fid := "gid" ++ toString w3.nextId
              let w4 := { w3 with archives := w3.archives ++ [(fid, tree)],
                                  nextId := w3.nextId + 1,
                                  trace := w3.trace ++ [Event.driveUpload] }
              match gc1.saves with
              | none => .error (.keyError, w4)
              | some saves =>
                let gc2 := { gc1 with saves := some (saves ++ [fid]) }
                let w5 := { w4 with settingsFile := w4.localGames,
                                    trace := w4.trace ++ [Event.localWrite] }
                match remote_config_handler w5 false (some g.cloud_index) gc2 with
                | .error e => .error e
                | .ok (_, w6) => .ok w6
      | _ => .error (.typeError, w1)

/-- The method `pull(local_index, save_index)` for both classes.  The in-memory
`base_hash` is set to the remote `latest_hash` before the download; the
existing save directory is removed and the downloaded archive extracted in
its place; then `update_local_config` persists the settings. -/
def pull (w : World) (local_index : Nat) (save_index : Int) :
    Except (PyErr × World) World :=
  match w.localGames.get? local_index with
  | none => .error (.indexError, w)
  | some g =>
    match remote_config_handler w false (some g.cloud_index) {} with
    | .error e => .error e
    | .ok (v, w1) =>
      match v with
      | some (.one cc) =>
        match cc.saves with
        | none => .error (.keyError, w1)
        | some saves =>
          match pyGet saves save_index with
          | none => .error (.indexError, w1)
          | some save_id =>
            match cc.latest_hash with
            | none => .error (.keyError, w1)
            | some lh =>
              let g1 := { g with base_hash := lh }
              let w2 := { w1 with localGames := w1.localGames.set local_index g1 }
              match w2.archives.lookup save_id with
              | none => .error (.transportError, w2)
              | some tree =>
                let w3 := { w2 with trace := w2.trace ++ [Event.driveDownload] }
                match w3.fs g.path with
                | none => .error (.fileNotFoundError, w3)
                | some _ =>
                  let w4 := { w3 with
                    fs := fun p => if p = g.path then some tree else w3.fs p,
                    trace := w3.trace ++ [Event.rmTree, Event.extractArchive] }
                  .ok { w4 with settingsFile := w4.localGames,
                                trace := w4.trace ++ [Event.localWrite] }
      | _ => .error (.typeError, w1)

/-- The method `enable_game_entry(cloud_index, path)`: reads the remote entry, appends a
local entry whose `base_hash` is the SHA-1 of the empty string, and persists
the settings. -/
def enable_game_entry (w : World) (cloud_index : Int) (path : String) :
    Except (PyErr × World) World :=
  match remote_config_handler w false (some cloud_index) {} with
  | .error e => .error e
  | .ok (v, w1) =>
    match v with
    | some (.one e) =>
      match e.name with
      | none => .error (.keyError, w1)
      | some nm =>
        let entry : LocalGameEntry :=
          ⟨nm, cloud_index, path, "da39a3ee5e6b4b0d3255bfef95601890afd80709"⟩
        let w2 := { w1 with localGames := w1.localGames ++ [entry] }
        .ok { w2 with settingsFile := w2.localGames, trace := w2.trace ++ [Event.localWrite] }
    | _ => .error (.typeError, w1)

/-- The method `SyncSession.sync(local_index)` from `sync_module.py`: the three chained
conditions with the Python short-circuit evaluation; the conflict branch returns
the entry read at the start, the pull and push branches call `pull` / `push`. -/
def SyncSession.sync (w : World) (local_index : Nat) :
    Except (PyErr × World) (Option RCValue × World) :=
  match w.localGames.get? local_index with
  | none => .error (.indexError, w)
  | some g =>
    match remote_config_handler w false (some g.cloud_index) {} with
    | .error e => .error e
    | .ok (saves_list, w1) =>
      match diff w1 local_index true with
      | .error e => .error e
      | .ok (l1, w2) =>
        match (if l1 then diff w2 local_index false else Except.ok (false, w2)) with
        | .error e => .error e
        | .ok (c1, w3) =>
          if c1 then .ok (saves_list, w3)
          else
            match diff w3 local_index true with
            | .error e => .error e
            | .ok (l2, w4) =>
              match (if l2 = false then diff w4 local_index false else Except.ok (false, w4)) with
              | .error e => .error e
              | .ok (c2, w5) =>
                if c2 then
                  match pull w5 local_index (-1) with
                  | .error e => .error e
                  | .ok w6 => .ok (none, w6)
                else
                  match diff w5 local_index true with
                  | .error e => .error e
                  | .ok (l3, w6) =>
                    match (if l3 then
                        (match diff w6 local_index false with
                         | .error e => Except.error e
                         | .ok (r3, w7) => Except.ok (!r3, w7))
                      else Except.ok (false, w6)) with
                    | .error e => .error e
                    | .ok (c3, w7) =>
                      if c3 then
                        match push w7 local_index true with
                        | .error e => .error e
                        | .ok w8 => .ok (none, w8)
                      else .ok (none, w7)

/-- The method `ManagerSession.sync(local_index)` from `savemgr.py`: identical branch
structure, but in the push branch the call `self.push(...)` is commented out
in the source, so the branch only logs and changes nothing. -/
def ManagerSession.sync (w : World) (local_index : Nat) :
    Except (PyErr × World) (Option RCValue × World) :=
  match w.localGames.get? local_index with
  | none => .error (.indexError, w)
  | some g =>
    match remote_config_handler w false (some g.cloud_index) {} with
    | .error e => .error e
    | .ok (saves_list, w1) =>
      match diff w1 local_index true with
      | .error e => .error e
      | .ok (l1, w2) =>
        match (if l1 then diff w2 local_index false else Except.ok (false, w2)) with
        | .error e => .error e
        | .ok (c1, w3) =>
          if c1 then .ok (saves_list, w3)
          else
            match diff w3 local_index true with
            | .error e => .error e
            | .ok (l2, w4) =>
              match (if l2 = false then diff w4 local_index false else Except.ok (false, w4)) with
              | .error e => .error e
              | .ok (c2, w5) =>
                if c2 then
                  match pull w5 local_index (-1) with
                  | .error e => .error e
                  | .ok w6 => .ok (none, w6)
                else
                  match diff w5 local_index true with
                  | .error e => .error e
                  | .ok (l3, w6) =>
                    match (if l3 then
                        (match diff w6 local_index false with
                         | .error e => Except.error e
                         | .ok (r3, w7) => Except.ok (!r3, w7))
                      else Except.ok (false, w6)) with
                    | .error e => .error e
                    | .ok (c3, w7) =>
                      if c3 then .ok (none, w7)
                      else .ok (none, w7)

/-! ## Well-formed trees and enumeration-order equivalence -/

@[simp] theorem Entries.toList_nil : Entries.nil.toList = [] := rfl

@[simp] theorem Entries.toList_cons (n : String) (t : FSTree) (r : Entries) :
    (Entries.cons n t r).toList = (n, t) :: r.toList := rfl

@[simp] theorem Entries.names_nil : Entries.nil.names = [] := rfl

@[simp] theorem Entries.names_cons (n : String) (t : FSTree) (r : Entries) :
    (Entries.cons n t r).names = n :: r.names := rfl

/-- A tree a real filesystem can produce: within each directory the entry
names are distinct. -/
inductive WFTree : FSTree → Prop where
  | file (b : List Nat) : WFTree (.file b)
  | dir (es : Entries) (hnd : es.names.Nodup)
      (hsub : ∀ n t, (n, t) ∈ es.toList → WFTree t) : WFTree (.dir es)

/-- Well-formedness (`WFTree`) seen from the entry-list side. -/
def WFE (es : Entries) : Prop :=
  es.names.Nodup ∧ ∀ n t, (n, t) ∈ es.toList → WFTree t

/-- One derivation system covering both levels of the mutual tree structure:
`.inl` relates trees, `.inr` relates entry lists.  An entry list is related to
any reordering of itself in which each entry keeps its name and its subtree is
itself related. -/
inductive EqvN : (FSTree ⊕ Entries) → (FSTree ⊕ Entries) → Prop where
  | file (b : List Nat) : EqvN (.inl (.file b)) (.inl (.file b))
  | dir {es1 es2 : Entries} : EqvN (.inr es1) (.inr es2) →
      EqvN (.inl (.dir es1)) (.inl (.dir es2))
  | nil : EqvN (.inr .nil) (.inr .nil)
  | cons {t1 t2 : FSTree} {r1 r2 : Entries} (n : String) :
      EqvN (.inl t1) (.inl t2) → EqvN (.inr r1) (.inr r2) →
      EqvN (.inr (.cons n t1 r1)) (.inr (.cons n t2 r2))
  | swap (m n : String) (t u : FSTree) (r : Entries) :
      EqvN (.inr (.cons m t (.cons n u r))) (.inr (.cons n u (.cons m t r)))
  | trans {e1 e2 e3 : Entries} :
      EqvN (.inr e1) (.inr e2) → EqvN (.inr e2) (.inr e3) →
      EqvN (.inr e1) (.inr e3)

/-- Two trees that hold the same files and directories, with the entries of
each directory possibly enumerated in a different order: the formal rendering
of "same tree contents, different directory-entry enumeration order". -/
def EnumEquiv (t1 t2 : FSTree) : Prop := EqvN (.inl t1) (.inl t2)

def EntriesEquiv (e1 e2 : Entries) : Prop := EqvN (.inr e1) (.inr e2)

def NamesPermProp : (FSTree ⊕ Entries) → (FSTree ⊕ Entries) → Prop
  | .inr e1, .inr e2 => e1.names.Perm e2.names
  | _, _ => True

def WfTransferProp : (FSTree ⊕ Entries) → (FSTree ⊕ Entries) → Prop
  | .inl t1, .inl t2 => WFTree t1 → WFTree t2
  | .inr e1, .inr e2 => WFE e1 → WFE e2
  | _, _ => True

def HashPermProp : (FSTree ⊕ Entries) → (FSTree ⊕ Entries) → Prop
  | .inl t1, .inl t2 => WFTree t1 → hashDirTree t1 = hashDirTree t2
  | .inr e1, .inr e2 =>
      WFE e1 → (fileHashes e1).Perm (fileHashes e2) ∧ (dirHashes e1).Perm (dirHashes e2)
  | _, _ => True

mutual
/-- Reference definition of the directory digest, written from the spec text:
at the immediate directory level, take the digests of all files in
lexicographic filename order, then the recursively computed digests of all
immediate subdirectories in lexicographic name order, concatenate those digest
strings in that order, and hash the concatenation. -/
def hashDirSpec : FSTree → String
  | .file _ => sha1Str ""
  | .dir es =>
      let fp := fileHashes es
      let dp := specDirPairs es
      sha1Str (strConcat
        ((List.insertionSort (fun a b : String => a ≤ b) (fp.map Prod.fst)).map
            (fun n => (fp.lookup n).getD "") ++
         (List.insertionSort (fun a b : String => a ≤ b) (dp.map Prod.fst)).map
            (fun n => (dp.lookup n).getD "")))
def specDirPairs : Entries → List (String × String)
  | .nil => []
  | .cons _ (.file _) r => specDirPairs r
  | .cons n (.dir es) r => (n, hashDirSpec (.dir es)) :: specDirPairs r
end

mutual
def FSTree.size : FSTree → Nat
  | .file _ => 1
  | .dir es => es.size + 1
def Entries.size : Entries → Nat
  | .nil => 1
  | .cons _ t r => t.size + r.size + 1
end

/-! ## Evaluation lemmas for the session operations -/

@[simp] theorem orD_some {α : Type} (v : α) (b : Option α) : orD (some v) b = some v := rfl

@[simp] theorem orD_none {α : Type} (b : Option α) : orD none b = b := rfl

@[simp] theorem orD_self {α : Type} (a : Option α) : orD a a = a := by
  cases a <;> rfl

@[simp] theorem emptyKw_isEmpty : (({} : RemoteGameEntry)).isEmptyKw = true := rfl

/-- The remote entry as rewritten by a successful push. -/
def pushedEntry (e : RemoteGameEntry) (H : String) (sv : List String)
    (fid : String) : RemoteGameEntry :=
  ⟨e.name, e.root_id, some H, some (sv ++ [fid])⟩

/-- The session state after a successful push of game `i`. -/
def pushWorld (w : World) (i : Nat) (g : LocalGameEntry) (doc : RemoteDoc)
    (n : Nat) (e : RemoteGameEntry) (sv : List String) (tree : FSTree) : World :=
  { w with
    localGames := w.localGames.set i { g with base_hash := hash_dir (w.fs g.path) },
    settingsFile := w.localGames.set i { g with base_hash := hash_dir (w.fs g.path) },
    remote := some ⟨doc.base_revision,
      doc.games.set n
        (pushedEntry e (hash_dir (w.fs g.path)) sv ("gid" ++ toString w.nextId))⟩,
    archives := w.archives ++ [("gid" ++ toString w.nextId, tree)],
    nextId := w.nextId + 1,
    trace := w.trace ++
      [Event.tarCreate, Event.driveUpload, Event.localWrite, Event.remoteWrite] }

/-- The session state after a successful pull of game `i`. -/
def pullWorld (w : World) (i : Nat) (g : LocalGameEntry) (lh : String)
    (atree : FSTree) : World :=
  { w with
    localGames := w.localGames.set i { g with base_hash := lh },
    settingsFile := w.localGames.set i { g with base_hash := lh },
    fs := fun p => if p = g.path then some atree else w.fs p,
    trace := w.trace ++
      [Event.driveDownload, Event.rmTree, Event.extractArchive, Event.localWrite] }

/-! ## Digest lengths: every SHA-1 hex digest has 40 characters -/

/-! ## Concrete states used by the divergence theorems and witnesses -/

def sampleRemoteEntry : RemoteGameEntry :=
  ⟨some "game", some "rid", some "old", some []⟩

/-- One tracked game whose save directory is empty (hence locally changed
relative to the recorded base hash "old") while the remote still has
`latest_hash = "old"`: the push branch of `sync`. -/
def sampleWorld : World :=
  ⟨[⟨"game", 0, "sv", "old"⟩], [⟨"game", 0, "sv", "old"⟩],
   some ⟨0, [sampleRemoteEntry]⟩,
   fun p => if p = "sv" then some (.dir .nil) else none, [], 0, 0, []⟩

def conflictRemoteEntry : RemoteGameEntry :=
  ⟨some "game", some "rid", some "new", some ["gid9"]⟩

/-- Both sides changed: local hash differs from "old" and the remote
`latest_hash` is "new". -/
def conflictWorld : World :=
  ⟨[⟨"game", 0, "sv", "old"⟩], [⟨"game", 0, "sv", "old"⟩],
   some ⟨0, [conflictRemoteEntry]⟩,
   fun p => if p = "sv" then some (.dir .nil) else none, [], 0, 0, []⟩

def noopRemoteEntry : RemoteGameEntry :=
  ⟨some "game", some "rid", some "da39a3ee5e6b4b0d3255bfef95601890afd80709", some []⟩

/-- Neither side changed: the empty save directory hashes to the recorded
base hash, which is also the remote `latest_hash`. -/
def noopWorld : World :=
  ⟨[⟨"game", 0, "sv", "da39a3ee5e6b4b0d3255bfef95601890afd80709"⟩],
   [⟨"game", 0, "sv", "da39a3ee5e6b4b0d3255bfef95601890afd80709"⟩],
   some ⟨0, [noopRemoteEntry]⟩,
   fun p => if p = "sv" then some (.dir .nil) else none, [], 0, 0, []⟩

def pullRemoteEntry : RemoteGameEntry :=
  ⟨some "game", some "rid", some "da39a3ee5e6b4b0d3255bfef95601890afd80709", some ["aid"]⟩

/-- Only the remote changed: the local file hashes to the recorded base hash,
and the latest remote archive is an empty directory whose hash is the remote
`latest_hash`. -/
def pullCaseTree : FSTree := .dir (.cons "f" (.file [1]) .nil)

def pullCaseWorld : World :=
  ⟨[⟨"game", 0, "sv", hash_dir (some pullCaseTree)⟩],
   [⟨"game", 0, "sv", hash_dir (some pullCaseTree)⟩],
   some ⟨0, [pullRemoteEntry]⟩,
   fun p => if p = "sv" then some pullCaseTree else none,
   [("aid", .dir .nil)], 0, 0, []⟩

def texA : FSTree := .dir (.cons "b" (.file [1]) (.cons "a" (.file [2]) .nil))

def texB : FSTree := .dir (.cons "a" (.file [2]) (.cons "b" (.file [1]) .nil))

/-! ## The claims -/

def enabledWorld : World :=
  ⟨[], [], some ⟨0, [sampleRemoteEntry]⟩, fun _ => none, [], 0, 0, []⟩

def deleteWorld : World :=
  ⟨[], [], some ⟨5, [sampleRemoteEntry, conflictRemoteEntry]⟩, fun _ => none, [], 0, 0, []⟩

theorem hashDirTree_dir (es : Entries) : hashDirTree (.dir es) = sha1Str (dirConcat es) := rfl

theorem wfe_of_wftree {es : Entries} (h : WFTree (.dir es)) : WFE es := by
  cases h with
  | dir _ hnd hsub => exact ⟨hnd, hsub⟩

theorem eqvN_names_perm {x y : FSTree ⊕ Entries} (h : EqvN x y) : NamesPermProp x y := by
  induction h with
  | file b => trivial
  | dir _ _ => trivial
  | nil => exact List.Perm.refl _
  | cons n _ _ _ ihr => exact List.Perm.cons n ihr
  | swap m n t u r => exact List.Perm.swap n m r.names
  | trans _ _ ih1 ih2 => exact ih1.trans ih2

theorem entriesEquiv_names_perm {e1 e2 : Entries} (h : EntriesEquiv e1 e2) :
    e1.names.Perm e2.names := eqvN_names_perm h

theorem eqvN_wf {x y : FSTree ⊕ Entries} (h : EqvN x y) : WfTransferProp x y := by
  induction h with
  | file b => exact id
  | dir _ ih =>
      intro hw
      exact WFTree.dir _ (ih (wfe_of_wftree hw)).1 (ih (wfe_of_wftree hw)).2
  | nil => exact id
  | cons n ht hr iht ihr =>
      intro hw
      have hr1 : WFE _ := ⟨(List.nodup_cons.mp (by simpa using hw.1)).2,
        fun m t hm => hw.2 m t (by simp [hm])⟩
      have hr2 := ihr hr1
      have hperm := List.Perm.cons n (entriesEquiv_names_perm hr)
      refine ⟨hperm.nodup hw.1, ?_⟩
      intro m t hm
      simp only [Entries.toList_cons, List.mem_cons] at hm
      rcases hm with hm | hm
      · have ht2 := iht (hw.2 n _ (by simp))
        rw [Prod.mk.injEq] at hm
        rw [hm.2]
        exact ht2
      · exact hr2.2 m t hm
  | swap m n t u r =>
      intro hw
      constructor
      · have hp : (Entries.cons m t (Entries.cons n u r)).names.Perm
            (Entries.cons n u (Entries.cons m t r)).names := by
          simpa using List.Perm.swap n m r.names
        exact hp.nodup hw.1
      · intro a b hm
        apply hw.2 a b
        simp only [Entries.toList_cons, List.mem_cons] at hm ⊢
        tauto
  | trans _ _ ih1 ih2 => exact fun hw => ih2 (ih1 hw)

theorem enumEquiv_wf {t1 t2 : FSTree} (h : EnumEquiv t1 t2) (hw : WFTree t1) :
    WFTree t2 := eqvN_wf h hw

/-- Two lists of keyed values that are permutations of one another, have
pairwise-distinct keys, and are both sorted by key, are equal. -/
theorem sorted_keyed_perm_eq {α : Type} :
    ∀ (l1 : List (String × α)), ∀ {l2 : List (String × α)},
      l1.Perm l2 → (l1.map Prod.fst).Nodup →
      l1.Pairwise keyLe → l2.Pairwise keyLe → l1 = l2
  | [], l2, hp, _, _, _ => (hp.symm.eq_nil).symm ▸ rfl
  | a :: t, l2, hp, hnd, hs1, hs2 => by
    match l2 with
    | [] => exact absurd hp (by simp)
    | b :: s =>
      have hab : a = b := by
        by_contra hne
        have ha : a ∈ b :: s := hp.mem_iff.mp (List.mem_cons_self a t)
        have hb : b ∈ a :: t := hp.symm.mem_iff.mp (List.mem_cons_self b s)
        have ha2 : a ∈ s := by
          rcases List.mem_cons.mp ha with h | h
          · exact absurd h hne
          · exact h
        have hb2 : b ∈ t := by
          rcases List.mem_cons.mp hb with h | h
          · exact absurd h.symm hne
          · exact h
        have h1 : keyLe a b := (List.pairwise_cons.mp hs1).1 b hb2
        have h2 : keyLe b a := (List.pairwise_cons.mp hs2).1 a ha2
        have hfst : a.1 = b.1 := le_antisymm h1 h2
        have : a.1 ∈ t.map Prod.fst := by
          rw [hfst]
          exact List.mem_map_of_mem Prod.fst hb2
        exact (List.nodup_cons.mp (by simpa using hnd)).1 this
      subst hab
      have hp2 : t.Perm s := hp.cons_inv
      have := sorted_keyed_perm_eq t hp2
        (List.nodup_cons.mp (by simpa using hnd)).2
        (List.pairwise_cons.mp hs1).2 (List.pairwise_cons.mp hs2).2
      rw [this]

theorem fileHashes_fst_sublist :
    ∀ es : Entries, ((fileHashes es).map Prod.fst).Sublist es.names
  | .nil => by simp [fileHashes]
  | .cons n (.file b) r => by
      simpa [fileHashes] using (fileHashes_fst_sublist r).cons₂ n
  | .cons n (.dir es) r => by
      simpa [fileHashes] using (fileHashes_fst_sublist r).cons n

theorem dirHashes_fst_sublist :
    ∀ es : Entries, ((dirHashes es).map Prod.fst).Sublist es.names
  | .nil => by simp [dirHashes]
  | .cons n (.file b) r => by
      simpa [dirHashes] using (dirHashes_fst_sublist r).cons n
  | .cons n (.dir es) r => by
      simpa [dirHashes] using (dirHashes_fst_sublist r).cons₂ n

/-- Under distinct keys, sorting by key is insensitive to the input order. -/
theorem insertionSort_keyed_eq {l1 l2 : List (String × String)}
    (hp : l1.Perm l2) (hnd : (l1.map Prod.fst).Nodup) :
    List.insertionSort keyLe l1 = List.insertionSort keyLe l2 := by
  apply sorted_keyed_perm_eq
  · exact (List.perm_insertionSort keyLe l1).trans
      (hp.trans (List.perm_insertionSort keyLe l2).symm)
  · exact (((List.perm_insertionSort keyLe l1).map Prod.fst).nodup_iff).mpr hnd
  · exact List.sorted_insertionSort keyLe l1
  · exact List.sorted_insertionSort keyLe l2

theorem eqvN_hash {x y : FSTree ⊕ Entries} (h : EqvN x y) : HashPermProp x y := by
  induction h with
  | file b => exact fun _ => rfl
  | dir he ih =>
      rename_i es1 es2
      intro hw
      have hwe := wfe_of_wftree hw
      have hpair := ih hwe
      have hfnd : ((fileHashes es1).map Prod.fst).Nodup :=
        List.Nodup.sublist (fileHashes_fst_sublist es1) hwe.1
      have hdnd : ((dirHashes es1).map Prod.fst).Nodup :=
        List.Nodup.sublist (dirHashes_fst_sublist es1) hwe.1
      show hashDirTree (.dir es1) = hashDirTree (.dir es2)
      simp only [hashDirTree, dirConcat]
      rw [insertionSort_keyed_eq hpair.1 hfnd, insertionSort_keyed_eq hpair.2 hdnd]
  | nil => exact fun _ => ⟨List.Perm.refl _, List.Perm.refl _⟩
  | cons n ht hr iht ihr =>
      rename_i t1 t2 r1 r2
      intro hw
      have hr1 : WFE r1 := ⟨(List.nodup_cons.mp (by simpa using hw.1)).2,
        fun m t hm => hw.2 m t (by simp [hm])⟩
      have ihp := ihr hr1
      match t1, t2, ht, iht with
      | _, _, EqvN.file b, _ =>
          refine ⟨?_, ?_⟩
          · simpa [fileHashes] using List.Perm.cons (n, sha1Bytes b) ihp.1
          · simpa [dirHashes] using ihp.2
      | _, _, @EqvN.dir es1 es2 he2, iht =>
          have hsub : WFTree (.dir es1) := hw.2 n (.dir es1) (by simp)
          have heq : hashDirTree (.dir es1) = hashDirTree (.dir es2) := iht hsub
          refine ⟨?_, ?_⟩
          · simpa [fileHashes] using ihp.1
          · show (dirHashes (.cons n (.dir es1) r1)).Perm (dirHashes (.cons n (.dir es2) r2))
            simp only [dirHashes]
            rw [heq]
            exact List.Perm.cons _ ihp.2
  | swap m n t u r =>
      intro _
      constructor
      · match t, u with
        | .file a, .file b =>
            simp only [fileHashes]
            exact List.Perm.swap (n, sha1Bytes b) (m, sha1Bytes a) _
        | .file a, .dir eu => simp only [fileHashes]; exact List.Perm.refl _
        | .dir et, .file b => simp only [fileHashes]; exact List.Perm.refl _
        | .dir et, .dir eu => simp only [fileHashes]; exact List.Perm.refl _
      · match t, u with
        | .file a, .file b => simp only [dirHashes]; exact List.Perm.refl _
        | .file a, .dir eu => simp only [dirHashes]; exact List.Perm.refl _
        | .dir et, .file b => simp only [dirHashes]; exact List.Perm.refl _
        | .dir et, .dir eu =>
            simp only [dirHashes]
            exact List.Perm.swap (n, hashDirTree (.dir eu)) (m, hashDirTree (.dir et)) _
  | trans h1 h2 ih1 ih2 =>
      intro hw
      have hw2 := eqvN_wf h1 hw
      exact ⟨(ih1 hw).1.trans ((ih2 hw2).1), (ih1 hw).2.trans ((ih2 hw2).2)⟩

theorem enumEquiv_hashDirTree {t1 t2 : FSTree} (h : EnumEquiv t1 t2) (hw : WFTree t1) :
    hashDirTree t1 = hashDirTree t2 := eqvN_hash h hw

theorem lookup_of_mem_nodup {l : List (String × String)} :
    ∀ {e : String × String}, (l.map Prod.fst).Nodup → e ∈ l → l.lookup e.1 = some e.2 := by
  induction l with
  | nil =>
      intro e _ he
      simp at he
  | cons a t ih =>
      intro e hnd he
      rcases List.mem_cons.mp he with he | he
      · subst he
        simp [List.lookup]
      · have hne : e.1 ≠ a.1 := by
          intro hcontra
          have hmem : a.1 ∈ t.map Prod.fst := by
            rw [← hcontra]
            exact List.mem_map_of_mem Prod.fst he
          exact (List.nodup_cons.mp (by simpa using hnd)).1 hmem
        have hrec := ih (List.nodup_cons.mp (by simpa using hnd)).2 he
        have hbeq : (e.1 == a.1) = false := beq_eq_false_iff_ne.mpr hne
        simpa [List.lookup, hbeq] using hrec

/-- Reading the values of a keyed list in sorted-key order through `lookup`
is the same as sorting the pairs by key and projecting the values. -/
theorem sorted_lookup_map {l : List (String × String)} (hnd : (l.map Prod.fst).Nodup) :
    (List.insertionSort (fun a b : String => a ≤ b) (l.map Prod.fst)).map
        (fun n => (l.lookup n).getD "")
      = (List.insertionSort keyLe l).map Prod.snd := by
  have hA : (List.insertionSort keyLe l).Perm l := List.perm_insertionSort keyLe l
  have hfst : (List.insertionSort keyLe l).map Prod.fst =
      List.insertionSort (fun a b : String => a ≤ b) (l.map Prod.fst) := by
    have hs1 : List.Sorted (fun a b : String => a ≤ b)
        ((List.insertionSort keyLe l).map Prod.fst) :=
      List.Pairwise.map Prod.fst (fun a b h => h) (List.sorted_insertionSort keyLe l)
    have hs2 : List.Sorted (fun a b : String => a ≤ b)
        (List.insertionSort (fun a b : String => a ≤ b) (l.map Prod.fst)) :=
      List.sorted_insertionSort _ _
    exact List.eq_of_perm_of_sorted
      ((hA.map Prod.fst).trans (List.perm_insertionSort _ _).symm) hs1 hs2
  rw [← hfst, List.map_map]
  apply List.map_congr_left
  intro e he
  have hel : e ∈ l := hA.mem_iff.mp he
  simp [Function.comp, lookup_of_mem_nodup hnd hel]

theorem FSTree.size_pos : ∀ t : FSTree, 1 ≤ t.size
  | .file _ => le_refl 1
  | .dir es => by simp [FSTree.size]

theorem size_mem_lt : ∀ (es : Entries) (n : String) (t : FSTree),
    (n, t) ∈ es.toList → t.size < es.size
  | .cons m u r, n, t, h => by
      simp only [Entries.toList_cons, List.mem_cons] at h
      rcases h with h | h
      · rw [Prod.mk.injEq] at h
        rw [h.2]
        simp [Entries.size]
        omega
      · have := size_mem_lt r n t h
        simp [Entries.size]
        omega

theorem specDirPairs_eq_of (k : Nat)
    (IH : ∀ t : FSTree, t.size ≤ k → WFTree t → hashDirSpec t = hashDirTree t) :
    ∀ es : Entries, es.size ≤ k → (∀ n t, (n, t) ∈ es.toList → WFTree t) →
      specDirPairs es = dirHashes es
  | .nil, _, _ => by simp [specDirPairs, dirHashes]
  | .cons n (.file b) r, hsz, hsub => by
      simp only [specDirPairs, dirHashes]
      exact specDirPairs_eq_of k IH r
        (by simp [Entries.size, FSTree.size] at hsz; omega)
        (fun m t hm => hsub m t (by simp [hm]))
  | .cons n (.dir es2) r, hsz, hsub => by
      simp only [specDirPairs, dirHashes]
      rw [IH (.dir es2)
          (by simp [Entries.size, FSTree.size] at hsz ⊢; omega)
          (hsub n (.dir es2) (by simp)),
        specDirPairs_eq_of k IH r
          (by simp [Entries.size, FSTree.size] at hsz; omega)
          (fun m t hm => hsub m t (by simp [hm]))]

theorem hashDirSpec_eq_of_size :
    ∀ (k : Nat) (t : FSTree), t.size ≤ k → WFTree t → hashDirSpec t = hashDirTree t
  | 0, t, hsz, _ => by
      exfalso
      have := FSTree.size_pos t
      omega
  | _ + 1, .file b, _, _ => by simp [hashDirSpec, hashDirTree]
  | k + 1, .dir es, hsz, hw => by
      have hwe := wfe_of_wftree hw
      have hdp : specDirPairs es = dirHashes es :=
        specDirPairs_eq_of k (fun t ht hwt => hashDirSpec_eq_of_size k t ht hwt) es
          (by simp [FSTree.size] at hsz; omega) hwe.2
      have hfnd : ((fileHashes es).map Prod.fst).Nodup :=
        List.Nodup.sublist (fileHashes_fst_sublist es) hwe.1
      have hdnd : ((dirHashes es).map Prod.fst).Nodup :=
        List.Nodup.sublist (dirHashes_fst_sublist es) hwe.1
      show hashDirSpec (.dir es) = hashDirTree (.dir es)
      simp only [hashDirSpec, hashDirTree, dirConcat]
      rw [hdp, sorted_lookup_map hfnd, sorted_lookup_map hdnd]

theorem hashDirSpec_eq {t : FSTree} (hw : WFTree t) : hashDirSpec t = hashDirTree t :=
  hashDirSpec_eq_of_size t.size t (le_refl _) hw

theorem get?_lt_length {α : Type} {l : List α} {i : Nat} {a : α}
    (h : l.get? i = some a) : i < l.length :=
  (List.get?_eq_some.mp h).1

theorem get?_set_self {α : Type} :
    ∀ (l : List α) (i : Nat) (b : α), i < l.length → (l.set i b).get? i = some b
  | _ :: _, 0, _, _ => rfl
  | _ :: t, i + 1, b, h => get?_set_self t i b (by simpa using h)
  | [], _, _, h => by simp at h

theorem pyIdx_lt {len : Nat} {i : Int} {n : Nat} (h : pyIdx len i = some n) : n < len := by
  unfold pyIdx at h
  split at h
  · split at h
    · rename_i h1 h2
      rw [Option.some.injEq] at h
      omega
    · exact absurd h (by simp)
  · split at h
    · rename_i h1 h2
      rw [Option.some.injEq] at h
      omega
    · exact absurd h (by simp)

theorem get?_eraseIdx_lt {α : Type} :
    ∀ (l : List α) (n k : Nat), k < n → (l.eraseIdx n).get? k = l.get? k
  | [], _, _, _ => by simp [List.eraseIdx]
  | _ :: _, 0, k, h => by omega
  | _ :: _, _ + 1, 0, _ => by simp [List.eraseIdx]
  | _ :: t, n + 1, k + 1, h => by
      simp only [List.eraseIdx, List.get?]
      exact get?_eraseIdx_lt t n k (by omega)

theorem get?_eraseIdx_ge {α : Type} :
    ∀ (l : List α) (n k : Nat), n ≤ k → n < l.length →
      (l.eraseIdx n).get? k = l.get? (k + 1)
  | [], _, _, _, h => by simp at h
  | _ :: _, 0, _, _, _ => by simp [List.eraseIdx]
  | _ :: _, _ + 1, 0, h1, _ => by omega
  | _ :: t, n + 1, k + 1, h1, h2 => by
      simp only [List.eraseIdx, List.get?]
      exact get?_eraseIdx_ge t n k (by omega) (by simpa using h2)

/-- A read-only call of `remote_config_handler`: index given, no kwargs. -/
theorem rch_read {w : World} {doc : RemoteDoc} {i : Int} {e : RemoteGameEntry}
    (hdoc : w.remote = some doc) (hget : pyGet doc.games i = some e) :
    remote_config_handler w false (some i) {} = .ok (some (.one e), w) := by
  simp [remote_config_handler, hdoc, hget]

/-- An update call of `remote_config_handler`: index given, nonempty kwargs. -/
theorem rch_update {w : World} {doc : RemoteDoc} {i : Int} {n : Nat}
    {kwargs : RemoteGameEntry}
    (hdoc : w.remote = some doc) (hidx : pyIdx doc.games.length i = some n)
    (hne : kwargs.isEmptyKw = false) :
    remote_config_handler w false (some i) kwargs = .ok
      (some (.one ((doc.games.getD n {}).updateWith kwargs)),
       { w with
         remote := some ⟨doc.base_revision,
           doc.games.set n ((doc.games.getD n {}).updateWith kwargs)⟩,
         trace := w.trace ++ [Event.remoteWrite] }) := by
  simp [remote_config_handler, hdoc, hidx, hne]

/-- Evaluating the local side of `diff`. -/
theorem diff_local_eval {w : World} {i : Nat} {g : LocalGameEntry}
    (hg : w.localGames.get? i = some g) :
    diff w i true = .ok (hash_dir (w.fs g.path) != g.base_hash, w) := by
  rw [List.get?_eq_getElem?] at hg
  simp [diff, hg]

/-- Evaluating the remote side of `diff`. -/
theorem diff_remote_eval {w : World} {i : Nat} {g : LocalGameEntry} {doc : RemoteDoc}
    {e : RemoteGameEntry} {lh : String}
    (hg : w.localGames.get? i = some g) (hdoc : w.remote = some doc)
    (hget : pyGet doc.games g.cloud_index = some e) (hlh : e.latest_hash = some lh) :
    diff w i false = .ok (lh != g.base_hash, w) := by
  rw [List.get?_eq_getElem?] at hg
  simp [diff, hg, rch_read hdoc hget, hlh]

theorem push_eval {w : World} {i : Nat} {g : LocalGameEntry} {doc : RemoteDoc}
    {n : Nat} {e : RemoteGameEntry} {rid : String} {sv : List String} {tree : FSTree}
    (hg : w.localGames.get? i = some g)
    (hdoc : w.remote = some doc)
    (hidx : pyIdx doc.games.length g.cloud_index = some n)
    (hn : doc.games.get? n = some e)
    (hrid : e.root_id = some rid)
    (hsv : e.saves = some sv)
    (htree : w.fs g.path = some tree) :
    push w i true = .ok (pushWorld w i g doc n e sv tree) := by
  have hn2 : doc.games[n]? = some e := by simpa [List.get?_eq_getElem?] using hn
  have hget : pyGet doc.games g.cloud_index = some e := by simp [pyGet, hidx, hn2]
  rw [List.get?_eq_getElem?] at hg
  simp [push, hg, remote_config_handler, hdoc, hget, hidx, hrid, htree, hsv, hn2,
    RemoteGameEntry.isEmptyKw, RemoteGameEntry.updateWith, List.getD, pushWorld,
    pushedEntry]

theorem pull_eval {w : World} {i : Nat} {g : LocalGameEntry} {doc : RemoteDoc}
    {e : RemoteGameEntry} {sv : List String} {si : Int} {sid : String} {lh : String}
    {atree cur : FSTree}
    (hg : w.localGames.get? i = some g)
    (hdoc : w.remote = some doc)
    (hget : pyGet doc.games g.cloud_index = some e)
    (hsv : e.saves = some sv)
    (hsid : pyGet sv si = some sid)
    (hlh : e.latest_hash = some lh)
    (harc : w.archives.lookup sid = some atree)
    (hfs : w.fs g.path = some cur) :
    pull w i si = .ok (pullWorld w i g lh atree) := by
  rw [List.get?_eq_getElem?] at hg
  simp [pull, hg, rch_read hdoc hget, hsv, hsid, hlh, harc, hfs, pullWorld]

theorem syncS_conflict {w : World} {i : Nat} {g : LocalGameEntry} {doc : RemoteDoc}
    {e : RemoteGameEntry} {lh : String}
    (hg : w.localGames.get? i = some g) (hdoc : w.remote = some doc)
    (hget : pyGet doc.games g.cloud_index = some e) (hlh : e.latest_hash = some lh)
    (hl : hash_dir (w.fs g.path) ≠ g.base_hash) (hr : lh ≠ g.base_hash) :
    SyncSession.sync w i = .ok (some (.one e), w) := by
  have hdl := diff_local_eval hg
  have hdr := diff_remote_eval hg hdoc hget hlh
  have hb1 : (hash_dir (w.fs g.path) != g.base_hash) = true := by
    simp only [bne_iff_ne, ne_eq]
    exact hl
  have hb2 : (lh != g.base_hash) = true := by
    simp only [bne_iff_ne, ne_eq]
    exact hr
  rw [List.get?_eq_getElem?] at hg
  simp [SyncSession.sync, hg, rch_read hdoc hget, hdl, hdr, hb1, hb2]

theorem syncM_conflict {w : World} {i : Nat} {g : LocalGameEntry} {doc : RemoteDoc}
    {e : RemoteGameEntry} {lh : String}
    (hg : w.localGames.get? i = some g) (hdoc : w.remote = some doc)
    (hget : pyGet doc.games g.cloud_index = some e) (hlh : e.latest_hash = some lh)
    (hl : hash_dir (w.fs g.path) ≠ g.base_hash) (hr : lh ≠ g.base_hash) :
    ManagerSession.sync w i = .ok (some (.one e), w) := by
  have hdl := diff_local_eval hg
  have hdr := diff_remote_eval hg hdoc hget hlh
  have hb1 : (hash_dir (w.fs g.path) != g.base_hash) = true := by
    simp only [bne_iff_ne, ne_eq]
    exact hl
  have hb2 : (lh != g.base_hash) = true := by
    simp only [bne_iff_ne, ne_eq]
    exact hr
  rw [List.get?_eq_getElem?] at hg
  simp [ManagerSession.sync, hg, rch_read hdoc hget, hdl, hdr, hb1, hb2]

theorem syncS_noop {w : World} {i : Nat} {g : LocalGameEntry} {doc : RemoteDoc}
    {e : RemoteGameEntry} {lh : String}
    (hg : w.localGames.get? i = some g) (hdoc : w.remote = some doc)
    (hget : pyGet doc.games g.cloud_index = some e) (hlh : e.latest_hash = some lh)
    (hl : hash_dir (w.fs g.path) = g.base_hash) (hr : lh = g.base_hash) :
    SyncSession.sync w i = .ok (none, w) := by
  have hdl := diff_local_eval hg
  have hdr := diff_remote_eval hg hdoc hget hlh
  have hb1 : (hash_dir (w.fs g.path) != g.base_hash) = false := by simp [hl]
  have hb2 : (lh != g.base_hash) = false := by simp [hr]
  rw [List.get?_eq_getElem?] at hg
  simp [SyncSession.sync, hg, rch_read hdoc hget, hdl, hdr, hb1, hb2]

theorem syncM_noop {w : World} {i : Nat} {g : LocalGameEntry} {doc : RemoteDoc}
    {e : RemoteGameEntry} {lh : String}
    (hg : w.localGames.get? i = some g) (hdoc : w.remote = some doc)
    (hget : pyGet doc.games g.cloud_index = some e) (hlh : e.latest_hash = some lh)
    (hl : hash_dir (w.fs g.path) = g.base_hash) (hr : lh = g.base_hash) :
    ManagerSession.sync w i = .ok (none, w) := by
  have hdl := diff_local_eval hg
  have hdr := diff_remote_eval hg hdoc hget hlh
  have hb1 : (hash_dir (w.fs g.path) != g.base_hash) = false := by simp [hl]
  have hb2 : (lh != g.base_hash) = false := by simp [hr]
  rw [List.get?_eq_getElem?] at hg
  simp [ManagerSession.sync, hg, rch_read hdoc hget, hdl, hdr, hb1, hb2]

theorem syncS_pull {w : World} {i : Nat} {g : LocalGameEntry} {doc : RemoteDoc}
    {e : RemoteGameEntry} {sv : List String} {sid : String} {lh : String}
    {atree cur : FSTree}
    (hg : w.localGames.get? i = some g) (hdoc : w.remote = some doc)
    (hget : pyGet doc.games g.cloud_index = some e) (hlh : e.latest_hash = some lh)
    (hsv : e.saves = some sv) (hsid : pyGet sv (-1) = some sid)
    (harc : w.archives.lookup sid = some atree) (hfs : w.fs g.path = some cur)
    (hl : hash_dir (w.fs g.path) = g.base_hash) (hr : lh ≠ g.base_hash) :
    SyncSession.sync w i = .ok (none, pullWorld w i g lh atree) := by
  have hdl := diff_local_eval hg
  have hdr := diff_remote_eval hg hdoc hget hlh
  have hpull := pull_eval hg hdoc hget hsv hsid hlh harc hfs
  have hb1 : (hash_dir (w.fs g.path) != g.base_hash) = false := by simp [hl]
  have hb2 : (lh != g.base_hash) = true := by
    simp only [bne_iff_ne, ne_eq]
    exact hr
  rw [List.get?_eq_getElem?] at hg
  simp [SyncSession.sync, hg, rch_read hdoc hget, hdl, hdr, hb1, hb2, hpull]

theorem syncM_pull {w : World} {i : Nat} {g : LocalGameEntry} {doc : RemoteDoc}
    {e : RemoteGameEntry} {sv : List String} {sid : String} {lh : String}
    {atree cur : FSTree}
    (hg : w.localGames.get? i = some g) (hdoc : w.remote = some doc)
    (hget : pyGet doc.games g.cloud_index = some e) (hlh : e.latest_hash = some lh)
    (hsv : e.saves = some sv) (hsid : pyGet sv (-1) = some sid)
    (harc : w.archives.lookup sid = some atree) (hfs : w.fs g.path = some cur)
    (hl : hash_dir (w.fs g.path) = g.base_hash) (hr : lh ≠ g.base_hash) :
    ManagerSession.sync w i = .ok (none, pullWorld w i g lh atree) := by
  have hdl := diff_local_eval hg
  have hdr := diff_remote_eval hg hdoc hget hlh
  have hpull := pull_eval hg hdoc hget hsv hsid hlh harc hfs
  have hb1 : (hash_dir (w.fs g.path) != g.base_hash) = false := by simp [hl]
  have hb2 : (lh != g.base_hash) = true := by
    simp only [bne_iff_ne, ne_eq]
    exact hr
  rw [List.get?_eq_getElem?] at hg
  simp [ManagerSession.sync, hg, rch_read hdoc hget, hdl, hdr, hb1, hb2, hpull]

theorem syncS_push {w : World} {i : Nat} {g : LocalGameEntry} {doc : RemoteDoc}
    {n : Nat} {e : RemoteGameEntry} {rid : String} {sv : List String} {tree : FSTree}
    {lh : String}
    (hg : w.localGames.get? i = some g) (hdoc : w.remote = some doc)
    (hidx : pyIdx doc.games.length g.cloud_index = some n)
    (hn : doc.games.get? n = some e) (hlh : e.latest_hash = some lh)
    (hrid : e.root_id = some rid) (hsv : e.saves = some sv)
    (htree : w.fs g.path = some tree)
    (hl : hash_dir (w.fs g.path) ≠ g.base_hash) (hr : lh = g.base_hash) :
    SyncSession.sync w i = .ok (none, pushWorld w i g doc n e sv tree) := by
  have hn2 : doc.games[n]? = some e := by simpa [List.get?_eq_getElem?] using hn
  have hget : pyGet doc.games g.cloud_index = some e := by simp [pyGet, hidx, hn2]
  have hdl := diff_local_eval hg
  have hdr := diff_remote_eval hg hdoc hget hlh
  have hpush := push_eval hg hdoc hidx hn hrid hsv htree
  have hb1 : (hash_dir (w.fs g.path) != g.base_hash) = true := by
    simp only [bne_iff_ne, ne_eq]
    exact hl
  have hb2 : (lh != g.base_hash) = false := by simp [hr]
  rw [List.get?_eq_getElem?] at hg
  simp [SyncSession.sync, hg, rch_read hdoc hget, hdl, hdr, hb1, hb2, hpush]

theorem syncM_push_branch_noop {w : World} {i : Nat} {g : LocalGameEntry}
    {doc : RemoteDoc} {e : RemoteGameEntry} {lh : String}
    (hg : w.localGames.get? i = some g) (hdoc : w.remote = some doc)
    (hget : pyGet doc.games g.cloud_index = some e) (hlh : e.latest_hash = some lh)
    (hl : hash_dir (w.fs g.path) ≠ g.base_hash) (hr : lh = g.base_hash) :
    ManagerSession.sync w i = .ok (none, w) := by
  have hdl := diff_local_eval hg
  have hdr := diff_remote_eval hg hdoc hget hlh
  have hb1 : (hash_dir (w.fs g.path) != g.base_hash) = true := by
    simp only [bne_iff_ne, ne_eq]
    exact hl
  have hb2 : (lh != g.base_hash) = false := by simp [hr]
  rw [List.get?_eq_getElem?] at hg
  simp [ManagerSession.sync, hg, rch_read hdoc hget, hdl, hdr, hb1, hb2]

theorem toHex8_length (n : Nat) : (toHex8 n).length = 8 := by
  simp [toHex8, String.length]

theorem sha1Bytes_length (ms : List Nat) : (sha1Bytes ms).length = 40 := by
  simp [sha1Bytes, String.length_append, toHex8_length]

theorem sha1Str_length (s : String) : (sha1Str s).length = 40 := sha1Bytes_length _

theorem hashDirTree_length : ∀ t : FSTree, (hashDirTree t).length = 40
  | .file _ => by simp [hashDirTree, sha1Str_length]
  | .dir _ => by simp [hashDirTree, sha1Str_length]

theorem fileHashes_snd_length :
    ∀ (es : Entries) (p : String × String), p ∈ fileHashes es → p.2.length = 40
  | .nil, p, h => by simp [fileHashes] at h
  | .cons n (.file b) r, p, h => by
      simp only [fileHashes, List.mem_cons] at h
      rcases h with h | h
      · rw [h]
        exact sha1Bytes_length b
      · exact fileHashes_snd_length r p h
  | .cons n (.dir es2) r, p, h => by
      simp only [fileHashes] at h
      exact fileHashes_snd_length r p h

theorem dirHashes_snd_length :
    ∀ (es : Entries) (p : String × String), p ∈ dirHashes es → p.2.length = 40
  | .nil, p, h => by simp [dirHashes] at h
  | .cons n (.file b) r, p, h => by
      simp only [dirHashes] at h
      exact dirHashes_snd_length r p h
  | .cons n (.dir es2) r, p, h => by
      simp only [dirHashes, List.mem_cons] at h
      rcases h with h | h
      · rw [h]
        exact hashDirTree_length (.dir es2)
      · exact dirHashes_snd_length r p h

theorem strConcat_length :
    ∀ l : List String, (∀ s ∈ l, s.length = 40) → (strConcat l).length = 40 * l.length
  | [], _ => rfl
  | s :: r, h => by
      have hr := strConcat_length r (fun x hx => h x (by simp [hx]))
      have hs := h s (by simp)
      simp [strConcat, String.length_append, hr, hs]
      ring

theorem entry_hash_count :
    ∀ es : Entries, (fileHashes es).length + (dirHashes es).length = es.toList.length
  | .nil => by simp [fileHashes, dirHashes]
  | .cons n (.file b) r => by
      have := entry_hash_count r
      simp only [fileHashes, dirHashes, Entries.toList_cons, List.length_cons]
      omega
  | .cons n (.dir es2) r => by
      have := entry_hash_count r
      simp only [fileHashes, dirHashes, Entries.toList_cons, List.length_cons]
      omega

theorem dirConcat_length (es : Entries) : (dirConcat es).length = 40 * es.toList.length := by
  have hmem : ∀ s ∈ (List.insertionSort keyLe (fileHashes es)).map Prod.snd ++
      (List.insertionSort keyLe (dirHashes es)).map Prod.snd, s.length = 40 := by
    intro s hs
    rcases List.mem_append.mp hs with hs | hs
    · rcases List.mem_map.mp hs with ⟨p, hp, hps⟩
      rw [← hps]
      exact fileHashes_snd_length es p (by simpa using hp)
    · rcases List.mem_map.mp hs with ⟨p, hp, hps⟩
      rw [← hps]
      exact dirHashes_snd_length es p (by simpa using hp)
  have hlen1 : (List.insertionSort keyLe (fileHashes es)).length = (fileHashes es).length :=
    (List.perm_insertionSort keyLe (fileHashes es)).length_eq
  have hlen2 : (List.insertionSort keyLe (dirHashes es)).length = (dirHashes es).length :=
    (List.perm_insertionSort keyLe (dirHashes es)).length_eq
  have := entry_hash_count es
  simp only [dirConcat]
  rw [strConcat_length _ hmem]
  simp [List.length_append, hlen1, hlen2]
  omega

/-- C4: `hash_dir` agrees with the reference definition written from the spec
(file digests in lexicographic filename order, then recursive subdirectory
digests in lexicographic name order, concatenated and hashed), is independent
of the directory-entry enumeration order of the filesystem, and two calls on an
unmodified tree return the same digest. -/
theorem hash_dir_matches_spec :
    (∀ t : FSTree, WFTree t → hashDirTree t = hashDirSpec t) ∧
    (∀ t1 t2 : FSTree, EnumEquiv t1 t2 → WFTree t1 → hashDirTree t1 = hashDirTree t2) ∧
    (∀ o : Option FSTree, hash_dir o = hash_dir o) :=
  ⟨fun _ hw => (hashDirSpec_eq hw).symm,
   fun _ _ h hw => enumEquiv_hashDirTree h hw,
   fun _ => rfl⟩

theorem texA_wf : WFTree texA := by
  refine WFTree.dir _ (by decide) ?_
  intro n t h
  simp only [texA, Entries.toList_cons, Entries.toList_nil, List.mem_cons,
    List.not_mem_nil, or_false] at h
  rcases h with h | h <;>
    · rw [Prod.mk.injEq] at h
      rw [h.2]
      exact WFTree.file _

theorem hash_dir_matches_spec_witness :
    WFTree texA ∧ EnumEquiv texA texB ∧
    hashDirTree texA = hashDirSpec texA ∧
    hashDirTree texA = hashDirTree texB := by
  have hq : EnumEquiv texA texB :=
    EqvN.dir (EqvN.swap "b" "a" (.file [1]) (.file [2]) .nil)
  exact ⟨texA_wf, hq, hash_dir_matches_spec.1 texA texA_wf,
    hash_dir_matches_spec.2.1 texA texB hq texA_wf⟩

/-- C6 counterexample: `hash_dir` on a missing path does not fail at all — it
returns the SHA-1 digest of the empty string, because `os.walk` silently
yields nothing for a nonexistent path. -/
theorem hash_dir_missing_returns_digest :
    hash_dir none = "da39a3ee5e6b4b0d3255bfef95601890afd80709" := by rfl

/-- C6 (amended): `hash_file` on a missing path does fail with
`FileNotFoundError`, but `hash_dir` on a missing path returns the empty-input
digest instead of failing. -/
theorem hash_missing_path :
    hash_file none = .error .fileNotFoundError ∧
    hash_dir none = "da39a3ee5e6b4b0d3255bfef95601890afd80709" ∧
    hash_dir none = sha1Str "" :=
  ⟨rfl, by rfl, rfl⟩

/-- C9 counterexample: adding an empty immediate subdirectory changes the
parent digest. -/
theorem empty_subdir_changes_hash :
    hashDirTree (.dir (.cons "sub" (.dir .nil) .nil)) ≠ hashDirTree (.dir .nil) := by
  decide

/-- C9 (amended): an empty immediate subdirectory does contribute an entry of
its own — its recursive `hash_dir` digest, the SHA-1 of the empty string — to
the concatenated digest list, lengthening the hashed string by exactly the 40
characters of one digest, and (concretely) changing the parent digest. -/
theorem empty_subdir_contributes_entry :
    (∀ (n : String) (es : Entries),
      dirHashes (.cons n (.dir .nil) es) =
        (n, "da39a3ee5e6b4b0d3255bfef95601890afd80709") :: dirHashes es) ∧
    (∀ es : Entries, (dirConcat es).length = 40 * es.toList.length) ∧
    (∀ (n : String) (es : Entries),
      (dirConcat (.cons n (.dir .nil) es)).length = (dirConcat es).length + 40) ∧
    hashDirTree (.dir (.cons "sub" (.dir .nil) .nil)) ≠ hashDirTree (.dir .nil) := by
  have hda : hashDirTree (.dir .nil) = "da39a3ee5e6b4b0d3255bfef95601890afd80709" := by rfl
  refine ⟨?_, dirConcat_length, ?_, by decide⟩
  · intro n es
    simp [dirHashes, hda]
  · intro n es
    rw [dirConcat_length, dirConcat_length]
    simp only [Entries.toList_cons, List.length_cons]
    ring

/-- C10: `enable_game_entry` appends a local entry whose `base_hash` is the
constant SHA-1 of the empty string; that constant is exactly what `hash_dir`
returns for an empty directory and for a nonexistent path, so the local diff
of a freshly enabled game with an empty or missing save directory is `false`
(locally unchanged). -/
theorem enable_game_entry_base_hash :
    (∀ (w : World) (ci : Int) (path : String) (doc : RemoteDoc)
        (e : RemoteGameEntry) (nm : String),
      w.remote = some doc → pyGet doc.games ci = some e → e.name = some nm →
      enable_game_entry w ci path = .ok
        { w with
          localGames := w.localGames ++
            [⟨nm, ci, path, "da39a3ee5e6b4b0d3255bfef95601890afd80709"⟩],
          settingsFile := w.localGames ++
            [⟨nm, ci, path, "da39a3ee5e6b4b0d3255bfef95601890afd80709"⟩],
          trace := w.trace ++ [Event.localWrite] }) ∧
    hash_dir (some (.dir .nil)) = "da39a3ee5e6b4b0d3255bfef95601890afd80709" ∧
    hash_dir none = "da39a3ee5e6b4b0d3255bfef95601890afd80709" ∧
    (∀ (w : World) (j : Nat) (g : LocalGameEntry),
      w.localGames.get? j = some g →
      g.base_hash = "da39a3ee5e6b4b0d3255bfef95601890afd80709" →
      (w.fs g.path = none ∨ w.fs g.path = some (.dir .nil)) →
      diff w j true = .ok (false, w)) := by
  refine ⟨?_, by rfl, by rfl, ?_⟩
  · intro w ci path doc e nm hdoc hget hname
    simp [enable_game_entry, rch_read hdoc hget, hname]
  · intro w j g hg hbase hfs
    have hdl := diff_local_eval hg
    have hb : (hash_dir (w.fs g.path) != g.base_hash) = false := by
      rcases hfs with hfs | hfs <;>
        · rw [hfs, hbase]
          decide
    rw [hdl, hb]

theorem enable_game_entry_base_hash_witness :
    enabledWorld.remote = some ⟨0, [sampleRemoteEntry]⟩ ∧
    pyGet (⟨0, [sampleRemoteEntry]⟩ : RemoteDoc).games 0 = some sampleRemoteEntry ∧
    sampleRemoteEntry.name = some "game" ∧
    enable_game_entry enabledWorld 0 "p" = .ok
      { enabledWorld with
        localGames := [⟨"game", 0, "p", "da39a3ee5e6b4b0d3255bfef95601890afd80709"⟩],
        settingsFile := [⟨"game", 0, "p", "da39a3ee5e6b4b0d3255bfef95601890afd80709"⟩],
        trace := [Event.localWrite] } ∧
    noopWorld.localGames.get? 0 =
      some ⟨"game", 0, "sv", "da39a3ee5e6b4b0d3255bfef95601890afd80709"⟩ ∧
    diff noopWorld 0 true = .ok (false, noopWorld) := by
  refine ⟨rfl, by decide, rfl, ?_, rfl, ?_⟩
  · exact enable_game_entry_base_hash.1 enabledWorld 0 "p" ⟨0, [sampleRemoteEntry]⟩
      sampleRemoteEntry "game" rfl (by decide) rfl
  · exact enable_game_entry_base_hash.2.2.2 noopWorld 0
      ⟨"game", 0, "sv", "da39a3ee5e6b4b0d3255bfef95601890afd80709"⟩ rfl rfl
      (Or.inr (by decide))

/-- C7: in delete mode with a valid index, `remote_config_handler` removes
exactly the entry at that index (later entries shift down by one), increments
`base_revision` by exactly 1, writes the document back, and changes nothing
else of the document or the session. -/
theorem delete_removes_exactly_one {w : World} {doc : RemoteDoc} {i : Int} {n : Nat}
    (hdoc : w.remote = some doc) (hidx : pyIdx doc.games.length i = some n) :
    remote_config_handler w true (some i) {} =
      .ok (some (.all (doc.games.eraseIdx n)),
        { w with remote := some ⟨doc.base_revision + 1, doc.games.eraseIdx n⟩,
                 trace := w.trace ++ [Event.remoteWrite] }) ∧
    (doc.games.eraseIdx n).length + 1 = doc.games.length ∧
    (∀ k, k < n → (doc.games.eraseIdx n).get? k = doc.games.get? k) ∧
    (∀ k, n ≤ k → (doc.games.eraseIdx n).get? k = doc.games.get? (k + 1)) := by
  have hlt := pyIdx_lt hidx
  refine ⟨?_, ?_, ?_, ?_⟩
  · simp [remote_config_handler, hdoc, hidx]
  · rw [List.length_eraseIdx]
    simp only [hlt, if_pos]
    omega
  · exact fun k hk => get?_eraseIdx_lt _ n k hk
  · exact fun k hk => get?_eraseIdx_ge _ n k hk hlt

theorem delete_removes_exactly_one_witness :
    deleteWorld.remote = some ⟨5, [sampleRemoteEntry, conflictRemoteEntry]⟩ ∧
    pyIdx 2 0 = some 0 ∧
    remote_config_handler deleteWorld true (some 0) {} =
      .ok (some (.all [conflictRemoteEntry]),
        { deleteWorld with remote := some ⟨6, [conflictRemoteEntry]⟩,
                           trace := [Event.remoteWrite] }) := by
  refine ⟨rfl, by decide, ?_⟩
  have h := (@delete_removes_exactly_one deleteWorld
    ⟨5, [sampleRemoteEntry, conflictRemoteEntry]⟩ 0 0 rfl (by decide)).1
  simpa using h

/-- C1: when the local directory hash and the remote latest hash both differ
from the recorded base hash, both `sync` implementations report the conflict
by returning the remote entry and leave the entire session state — local
config, settings file, filesystem, archives, remote document and side-effect
trace — exactly as it was: no push, no pull, no archive transfer.  The
conflict condition is the first branch of the classification, so this holds
however the two diffs come out elsewhere. -/
theorem sync_conflict_reports_and_moves_nothing {w : World} {i : Nat}
    {g : LocalGameEntry} {doc : RemoteDoc} {e : RemoteGameEntry} {lh : String}
    (hg : w.localGames.get? i = some g) (hdoc : w.remote = some doc)
    (hget : pyGet doc.games g.cloud_index = some e) (hlh : e.latest_hash = some lh)
    (hl : hash_dir (w.fs g.path) ≠ g.base_hash) (hr : lh ≠ g.base_hash) :
    SyncSession.sync w i = .ok (some (.one e), w) ∧
    ManagerSession.sync w i = .ok (some (.one e), w) :=
  ⟨syncS_conflict hg hdoc hget hlh hl hr, syncM_conflict hg hdoc hget hlh hl hr⟩

theorem sync_conflict_witness :
    conflictWorld.localGames.get? 0 = some ⟨"game", 0, "sv", "old"⟩ ∧
    conflictWorld.remote = some ⟨0, [conflictRemoteEntry]⟩ ∧
    hash_dir (conflictWorld.fs "sv") ≠ "old" ∧
    SyncSession.sync conflictWorld 0 = .ok (some (.one conflictRemoteEntry), conflictWorld) ∧
    ManagerSession.sync conflictWorld 0 = .ok (some (.one conflictRemoteEntry), conflictWorld) := by
  have h := @sync_conflict_reports_and_moves_nothing conflictWorld 0
    ⟨"game", 0, "sv", "old"⟩ ⟨0, [conflictRemoteEntry]⟩ conflictRemoteEntry "new"
    rfl rfl (by decide) rfl (by decide) (by decide)
  exact ⟨rfl, rfl, by decide, h.1, h.2⟩

/-- C8: when neither side changed, both `sync` implementations return leaving
the whole session state unchanged — in particular zero remote-document writes
and zero archive uploads or downloads; and every read-only lookup of
`remote_config_handler` (index given, no fields to write) leaves the session,
including the remote document, unchanged. -/
theorem sync_noop_no_remote_writes :
    (∀ (w : World) (i : Nat) (g : LocalGameEntry) (doc : RemoteDoc)
        (e : RemoteGameEntry) (lh : String),
      w.localGames.get? i = some g → w.remote = some doc →
      pyGet doc.games g.cloud_index = some e → e.latest_hash = some lh →
      hash_dir (w.fs g.path) = g.base_hash → lh = g.base_hash →
      SyncSession.sync w i = .ok (none, w) ∧
      ManagerSession.sync w i = .ok (none, w)) ∧
    (∀ (w : World) (i : Int) (r : Option RCValue) (w2 : World),
      remote_config_handler w false (some i) {} = .ok (r, w2) → w2 = w) := by
  constructor
  · intro w i g doc e lh hg hdoc hget hlh hl hr
    exact ⟨syncS_noop hg hdoc hget hlh hl hr, syncM_noop hg hdoc hget hlh hl hr⟩
  · intro w i r w2 h
    unfold remote_config_handler at h
    cases hrem : w.remote with
    | none =>
        rw [hrem] at h
        simp at h
        exact h.2.symm
    | some doc =>
        rw [hrem] at h
        simp only [if_pos rfl, emptyKw_isEmpty, if_true, Bool.false_eq_true] at h
        cases hpg : pyGet doc.games i with
        | some e =>
            rw [hpg] at h
            simp at h
            exact h.2.symm
        | none =>
            rw [hpg] at h
            simp at h

theorem sync_noop_witness :
    noopWorld.localGames.get? 0 =
      some ⟨"game", 0, "sv", "da39a3ee5e6b4b0d3255bfef95601890afd80709"⟩ ∧
    hash_dir (noopWorld.fs "sv") = "da39a3ee5e6b4b0d3255bfef95601890afd80709" ∧
    SyncSession.sync noopWorld 0 = .ok (none, noopWorld) ∧
    ManagerSession.sync noopWorld 0 = .ok (none, noopWorld) ∧
    (remote_config_handler noopWorld false (some 0) {} =
        .ok (some (.one noopRemoteEntry), noopWorld) → noopWorld = noopWorld) := by
  have h := sync_noop_no_remote_writes.1 noopWorld 0
    ⟨"game", 0, "sv", "da39a3ee5e6b4b0d3255bfef95601890afd80709"⟩ ⟨0, [noopRemoteEntry]⟩
    noopRemoteEntry "da39a3ee5e6b4b0d3255bfef95601890afd80709"
    rfl rfl (by decide) rfl (by decide) rfl
  exact ⟨rfl, by decide, h.1, h.2,
    fun hc => sync_noop_no_remote_writes.2 noopWorld 0 (some (.one noopRemoteEntry))
      noopWorld hc⟩

/-- C3: immediately after a `SyncSession.sync` call that completes with a
push or with a pull, the recorded `base_hash`, the hash of the local save
directory, and the remote `latest_hash` all agree.  For the pull case
this needs the pulled archive to hash to the remote `latest_hash`, which is
what every archive uploaded by a push satisfies. -/
theorem sync_after_push_pull_hashes_agree :
    (∀ (w : World) (i : Nat) (g : LocalGameEntry) (doc : RemoteDoc) (n : Nat)
        (e : RemoteGameEntry) (rid : String) (sv : List String) (tree : FSTree)
        (lh : String),
      w.localGames.get? i = some g → w.remote = some doc →
      pyIdx doc.games.length g.cloud_index = some n → doc.games.get? n = some e →
      e.latest_hash = some lh → e.root_id = some rid → e.saves = some sv →
      w.fs g.path = some tree →
      hash_dir (w.fs g.path) ≠ g.base_hash → lh = g.base_hash →
      ∃ w2 : World, SyncSession.sync w i = .ok (none, w2) ∧
        w2.localGames.get? i = some { g with base_hash := hash_dir (w.fs g.path) } ∧
        hash_dir (w2.fs g.path) = hash_dir (w.fs g.path) ∧
        ∃ (doc2 : RemoteDoc) (e2 : RemoteGameEntry), w2.remote = some doc2 ∧
          doc2.games.get? n = some e2 ∧
          e2.latest_hash = some (hash_dir (w.fs g.path))) ∧
    (∀ (w : World) (i : Nat) (g : LocalGameEntry) (doc : RemoteDoc)
        (e : RemoteGameEntry) (sv : List String) (sid : String) (lh : String)
        (atree cur : FSTree),
      w.localGames.get? i = some g → w.remote = some doc →
      pyGet doc.games g.cloud_index = some e → e.latest_hash = some lh →
      e.saves = some sv → pyGet sv (-1) = some sid →
      w.archives.lookup sid = some atree → w.fs g.path = some cur →
      hash_dir (w.fs g.path) = g.base_hash → lh ≠ g.base_hash →
      hashDirTree atree = lh →
      ∃ w2 : World, SyncSession.sync w i = .ok (none, w2) ∧
        w2.localGames.get? i = some { g with base_hash := lh } ∧
        hash_dir (w2.fs g.path) = lh ∧
        w2.remote = some doc ∧ pyGet doc.games g.cloud_index = some e ∧
        e.latest_hash = some lh) := by
  constructor
  · intro w i g doc n e rid sv tree lh hg hdoc hidx hn hlh hrid hsv htree hl hr
    refine ⟨pushWorld w i g doc n e sv tree,
      syncS_push hg hdoc hidx hn hlh hrid hsv htree hl hr, ?_, rfl, ?_⟩
    · exact get?_set_self _ i _ (get?_lt_length hg)
    · refine ⟨⟨doc.base_revision, doc.games.set n
          (pushedEntry e (hash_dir (w.fs g.path)) sv ("gid" ++ toString w.nextId))⟩,
        pushedEntry e (hash_dir (w.fs g.path)) sv ("gid" ++ toString w.nextId),
        rfl, ?_, rfl⟩
      exact get?_set_self _ n _ (get?_lt_length hn)
  · intro w i g doc e sv sid lh atree cur hg hdoc hget hlh hsv hsid harc hfs hl hr hah
    refine ⟨pullWorld w i g lh atree,
      syncS_pull hg hdoc hget hlh hsv hsid harc hfs hl hr, ?_, ?_, hdoc, hget, hlh⟩
    · exact get?_set_self _ i _ (get?_lt_length hg)
    · show hash_dir (if g.path = g.path then some atree else w.fs g.path) = lh
      rw [if_pos rfl]
      exact hah

theorem sync_after_push_pull_witness :
    sampleWorld.localGames.get? 0 = some ⟨"game", 0, "sv", "old"⟩ ∧
    hash_dir (sampleWorld.fs "sv") ≠ "old" ∧
    (∃ w2 : World, SyncSession.sync sampleWorld 0 = .ok (none, w2) ∧
      w2.localGames.get? 0 =
        some ⟨"game", 0, "sv", hash_dir (sampleWorld.fs "sv")⟩ ∧
      hash_dir (w2.fs "sv") = hash_dir (sampleWorld.fs "sv") ∧
      ∃ (doc2 : RemoteDoc) (e2 : RemoteGameEntry), w2.remote = some doc2 ∧
        doc2.games.get? 0 = some e2 ∧
        e2.latest_hash = some (hash_dir (sampleWorld.fs "sv"))) ∧
    hashDirTree (.dir .nil) = "da39a3ee5e6b4b0d3255bfef95601890afd80709" ∧
    (∃ w2 : World, SyncSession.sync pullCaseWorld 0 = .ok (none, w2) ∧
      w2.localGames.get? 0 =
        some ⟨"game", 0, "sv", "da39a3ee5e6b4b0d3255bfef95601890afd80709"⟩ ∧
      hash_dir (w2.fs "sv") = "da39a3ee5e6b4b0d3255bfef95601890afd80709") := by
  have hpush := sync_after_push_pull_hashes_agree.1 sampleWorld 0
    ⟨"game", 0, "sv", "old"⟩ ⟨0, [sampleRemoteEntry]⟩ 0 sampleRemoteEntry
    "rid" [] (.dir .nil) "old"
    rfl rfl (by decide) rfl rfl rfl rfl (by decide) (by decide) rfl
  have hpull := sync_after_push_pull_hashes_agree.2 pullCaseWorld 0
    ⟨"game", 0, "sv", hash_dir (some pullCaseTree)⟩ ⟨0, [pullRemoteEntry]⟩
    pullRemoteEntry ["aid"] "aid" "da39a3ee5e6b4b0d3255bfef95601890afd80709"
    (.dir .nil) pullCaseTree
    rfl rfl (by decide) rfl rfl (by decide) (by decide) (by decide) (by decide)
    (by decide) (by rfl)
  refine ⟨rfl, by decide, ?_, by rfl, ?_⟩
  · rcases hpush with ⟨w2, hsync, hlocal, hfs, hrem⟩
    exact ⟨w2, hsync, hlocal, hfs, hrem⟩
  · rcases hpull with ⟨w2, hsync, hlocal, hfs, _⟩
    exact ⟨w2, hsync, hlocal, hfs⟩

/-- C2 divergence: with only the local side changed (push branch),
`ManagerSession.sync` performs no push at all — the `self.push(...)` call is
commented out in `savemgr.py`, so the session is returned unchanged even
though the branch logs "Pushing"/"Pushed" — while `SyncSession.sync` on the
same state performs the full push: the directory is hashed and archived, the
archive id is appended to the remote saves history, and both the remote
`latest_hash` and the local `base_hash` become the new hash. -/
theorem manager_push_branch_does_nothing :
    ManagerSession.sync sampleWorld 0 = .ok (none, sampleWorld) ∧
    SyncSession.sync sampleWorld 0 =
      .ok (none, pushWorld sampleWorld 0 ⟨"game", 0, "sv", "old"⟩
        ⟨0, [sampleRemoteEntry]⟩ 0 sampleRemoteEntry [] (.dir .nil)) ∧
    (pushWorld sampleWorld 0 ⟨"game", 0, "sv", "old"⟩
        ⟨0, [sampleRemoteEntry]⟩ 0 sampleRemoteEntry [] (.dir .nil)).localGames =
      [⟨"game", 0, "sv", "da39a3ee5e6b4b0d3255bfef95601890afd80709"⟩] ∧
    (pushWorld sampleWorld 0 ⟨"game", 0, "sv", "old"⟩
        ⟨0, [sampleRemoteEntry]⟩ 0 sampleRemoteEntry [] (.dir .nil)).remote =
      some ⟨0, [⟨some "game", some "rid",
        some "da39a3ee5e6b4b0d3255bfef95601890afd80709", some ["gid0"]⟩]⟩ ∧
    (pushWorld sampleWorld 0 ⟨"game", 0, "sv", "old"⟩
        ⟨0, [sampleRemoteEntry]⟩ 0 sampleRemoteEntry [] (.dir .nil)).trace =
      [Event.tarCreate, Event.driveUpload, Event.localWrite, Event.remoteWrite] := by
  refine ⟨?_, ?_, by decide, by decide, by decide⟩
  · exact @syncM_push_branch_noop sampleWorld 0 ⟨"game", 0, "sv", "old"⟩
      ⟨0, [sampleRemoteEntry]⟩ sampleRemoteEntry "old"
      rfl rfl (by decide) rfl (by decide) rfl
  · exact @syncS_push sampleWorld 0 ⟨"game", 0, "sv", "old"⟩
      ⟨0, [sampleRemoteEntry]⟩ 0 sampleRemoteEntry "rid" [] (.dir .nil) "old"
      rfl rfl (by decide) rfl rfl rfl rfl (by decide) (by decide) rfl

/-- C5 divergence: when the archive is created but the upload fails, the
persisted settings keep the old `base_hash` (the retry after a restart would
re-detect the change), but the in-memory `base_hash` was already set to the
new hash before the upload — `local_config` aliases the session settings
dict — so a subsequent local diff in the same session sees no local change. -/
theorem push_upload_failure_mutates_memory :
    ∃ w2 : World, push sampleWorld 0 false = .error (.transportError, w2) ∧
      w2.settingsFile = sampleWorld.settingsFile ∧
      w2.settingsFile.map LocalGameEntry.base_hash = ["old"] ∧
      w2.localGames.map LocalGameEntry.base_hash =
        ["da39a3ee5e6b4b0d3255bfef95601890afd80709"] ∧
      w2.remote = sampleWorld.remote ∧
      w2.archives = sampleWorld.archives ∧
      w2.trace = [Event.tarCreate] ∧
      diff w2 0 true = .ok (false, w2) := by
  refine ⟨_, rfl, rfl, by decide, by decide, rfl, rfl, rfl, by rfl⟩
